import Mathlib

/-!
# AgentTrace core — shallow embedding and verification

This file embeds the core data model and operations of the `agenttrace`
observability backend (crate `agenttrace-core`) into Lean and proves, or
refutes, the frozen claims about them.

Conventions of the embedding:
* Rust `f64` arithmetic is modelled exactly over `ℚ` (the values used by the
  pricing table and the claims are small decimal literals, and all claimed
  tolerances dominate the f64 rounding error by many orders of magnitude).
* `chrono` timestamps are modelled as `Int` milliseconds since an epoch.
* UUIDs are modelled as opaque `Nat`s.
* Rust `String`s that are only ever compared or concatenated are Lean
  `String`s; the preview fields, whose byte-level truncation matters, are
  modelled as `List Char` together with an explicit UTF-8 byte-size function.
* The unspecified iteration order of a Rust `HashMap` is modelled by
  quantifying over permutations of the entry list built by
  `CostCalculator::new` (insertion order is `defaultPricing` below).
* Fallible / panicking operations return `Option`; effects of the storage and
  pub/sub adapters are made explicit (a list of repository actions, a
  per-channel success oracle).
-/

namespace AgentTrace

/-- Status of a span (`SpanStatus` in `models/span.rs`). -/
inductive SpanStatus where
  | ok
  | error
  | unset
deriving DecidableEq, Repr

/-- Kind of a span (`SpanKind` in `models/span.rs`). -/
inductive SpanKind where
  | internal
  | client
  | server
  | producer
  | consumer
deriving DecidableEq, Repr

/-- An event that occurred during a span (`SpanEvent` in `models/span.rs`);
`attributes` is an opaque JSON value. -/
structure SpanEvent where
  name : String
  timestamp : Int
  attributes : String
deriving DecidableEq, Repr

/-- The span data model (`Span` in `models/span.rs`).  Preview fields are
`List Char` so that UTF-8 byte boundaries can be spoken about; JSON-valued
fields are opaque `String`s; links are kept opaque. -/
structure Span where
  id : Nat
  span_id : String
  trace_id : String
  parent_span_id : Option String
  operation_name : String
  service_name : String
  span_kind : SpanKind
  started_at : Int
  ended_at : Option Int
  duration_ms : Option ℚ
  status : SpanStatus
  status_message : Option String
  model_name : Option String
  model_provider : Option String
  tokens_in : Option Int
  tokens_out : Option Int
  tokens_reasoning : Option Int
  cost_usd : Option ℚ
  tool_name : Option String
  tool_input : Option String
  tool_output : Option String
  tool_duration_ms : Option ℚ
  prompt_preview : Option (List Char)
  completion_preview : Option (List Char)
  attributes : String
  events : List SpanEvent
  links : List String
deriving DecidableEq, Repr

/-- `Span::is_llm_call` — a span is an LLM call iff `model_name` is set. -/
def Span.is_llm_call (s : Span) : Bool :=
  s.model_name.isSome

/-- `Span::is_tool_call`. -/
def Span.is_tool_call (s : Span) : Bool :=
  s.tool_name.isSome

/-- `Span::calculate_duration` — when `ended_at` is present, set
`duration_ms` to the difference of the two timestamps (milliseconds). -/
def Span.calculate_duration (s : Span) : Span :=
  match s.ended_at with
  | some e => { s with duration_ms := some ((e - s.started_at : Int) : ℚ) }
  | none => s

/-- Pricing of a model, per million tokens (`ModelPricing` in
`collector/cost.rs`). -/
structure ModelPricing where
  input_per_million : ℚ
  output_per_million : ℚ
  cached_input_per_million : Option ℚ
deriving DecidableEq, Repr

/-- The pricing table built by `CostCalculator::new`, as a key–entry list in
source insertion order.  (The Rust code stores these in a `HashMap`; its
iteration order is some unspecified permutation of this list.) -/
def defaultPricing : List (String × ModelPricing) :=
  [ ("claude-3-opus", ⟨15, 75, some 1.5⟩)
  , ("claude-3-5-sonnet", ⟨3, 15, some 0.3⟩)
  , ("claude-3-5-haiku", ⟨0.80, 4, some 0.08⟩)
  , ("claude-sonnet-4", ⟨3, 15, some 0.3⟩)
  , ("claude-opus-4", ⟨15, 75, some 1.5⟩)
  , ("gpt-4", ⟨30, 60, none⟩)
  , ("gpt-4-turbo", ⟨10, 30, none⟩)
  , ("gpt-4o", ⟨2.50, 10, some 1.25⟩)
  , ("gpt-4o-mini", ⟨0.15, 0.60, some 0.075⟩)
  , ("o1", ⟨15, 60, some 7.5⟩)
  , ("o1-mini", ⟨3, 12, some 1.5⟩)
  , ("o1-pro", ⟨150, 600, none⟩)
  , ("gpt-3.5-turbo", ⟨0.50, 1.50, none⟩)
  , ("gemini-1.5-pro", ⟨1.25, 5, some 0.3125⟩)
  , ("gemini-1.5-flash", ⟨0.075, 0.30, some 0.01875⟩)
  , ("gemini-2.0-flash", ⟨0.10, 0.40, some 0.025⟩)
  , ("mistral-large", ⟨2, 6, none⟩)
  , ("mistral-small", ⟨0.2, 0.6, none⟩)
  ]

/-- The "gpt-4" entry of the default table (named for the theorems). -/
def gpt4Pricing : ModelPricing :=
  { input_per_million := 30, output_per_million := 60, cached_input_per_million := none }

/-- The "gpt-4o" entry of the default table. -/
def gpt4oPricing : ModelPricing :=
  { input_per_million := 2.50, output_per_million := 10, cached_input_per_million := some 1.25 }

/-- The "gpt-4o-mini" entry of the default table. -/
def gpt4oMiniPricing : ModelPricing :=
  { input_per_million := 0.15, output_per_million := 0.60, cached_input_per_million := some 0.075 }

/-- The "claude-sonnet-4" entry of the default table. -/
def claudeSonnet4Pricing : ModelPricing :=
  { input_per_million := 3, output_per_million := 15, cached_input_per_million := some 0.3 }

/-- `str::starts_with(key)` on the model name: `key` is a prefix. -/
def keyMatchesAtStart (model_name key : String) : Bool :=
  key.data.isPrefixOf model_name.data

/-- `str::contains(key)` on the model name: `key` occurs as a substring. -/
def keyMatchesInside (model_name key : String) : Bool :=
  (List.range (model_name.data.length + 1)).any
    (fun i => key.data.isPrefixOf (model_name.data.drop i))

/-- `HashMap::get` — exact key lookup.  For a map with pairwise distinct
keys this is independent of the entry order. -/
def lookupExact (table : List (String × ModelPricing)) (name : String) :
    Option ModelPricing :=
  (table.find? (fun kv => kv.1 = name)).map (·.2)

/-- `CostCalculator::find_pricing`: exact match first, then the FIRST key in
the table's iteration order that is a prefix of the model name, then the
first whose key is contained in the model name.  The Rust source iterates a
`HashMap`, so `table` here is whatever permutation of `defaultPricing` the
map happens to produce. -/
def find_pricing (table : List (String × ModelPricing)) (name : String) :
    Option ModelPricing :=
  match lookupExact table name with
  | some p => some p
  | none =>
    match table.find? (fun kv => keyMatchesAtStart name kv.1) with
    | some kv => some kv.2
    | none => (table.find? (fun kv => keyMatchesInside name kv.1)).map (·.2)

/-- `CostCalculator::calculate`: for an LLM span with a priced model, set
`cost_usd := (tokens_in/1e6)·input_rate + ((tokens_out+tokens_reasoning)/1e6)·output_rate`,
missing token counts counting as zero; otherwise leave the span unchanged. -/
def calculate (table : List (String × ModelPricing)) (span : Span) : Span :=
  if !span.is_llm_call then span
  else
    match span.model_name with
    | none => span
    | some name =>
      match find_pricing table name with
      | none => span
      | some pricing =>
        let tokens_in : ℚ := ((span.tokens_in.getD 0 : Int) : ℚ)
        let tokens_out : ℚ := ((span.tokens_out.getD 0 : Int) : ℚ)
        let tokens_reasoning : ℚ := ((span.tokens_reasoning.getD 0 : Int) : ℚ)
        let input_cost := (tokens_in / 1000000) * pricing.input_per_million
        let output_cost :=
          ((tokens_out + tokens_reasoning) / 1000000) * pricing.output_per_million
        { span with cost_usd := some (input_cost + output_cost) }

/-- A fully-populated sample span used to instantiate theorems on concrete
inputs (mirrors `create_test_span` in the source's tests). -/
def baseSpan : Span :=
  { id := 0
  , span_id := "test-span"
  , trace_id := "test-trace"
  , parent_span_id := none
  , operation_name := "llm_call"
  , service_name := "test"
  , span_kind := SpanKind.internal
  , started_at := 0
  , ended_at := some 100
  , duration_ms := some 100
  , status := SpanStatus.ok
  , status_message := none
  , model_name := none
  , model_provider := none
  , tokens_in := none
  , tokens_out := none
  , tokens_reasoning := none
  , cost_usd := none
  , tool_name := none
  , tool_input := none
  , tool_output := none
  , tool_duration_ms := none
  , prompt_preview := none
  , completion_preview := none
  , attributes := "{}"
  , events := []
  , links := [] }

/-! ## Ingestion pipeline: `enrich_span` (collector/pipeline.rs)

Rust `String::len` is a byte count and `String::truncate` cuts at a byte
index, panicking when that index is not a character boundary.  We model
the byte count of a `List Char` explicitly and let the truncation return
`none` exactly where the Rust code panics. -/

/-- Number of bytes of the UTF-8 encoding of a character. -/
def charBytes (c : Char) : Nat :=
  if c.toNat < 128 then 1
  else if c.toNat < 2048 then 2
  else if c.toNat < 65536 then 3
  else 4

/-- UTF-8 byte length of a string, as `str::len` counts it. -/
def utf8Len (s : List Char) : Nat :=
  (s.map charBytes).sum

/-- `String::truncate(n)`: keep the characters occupying the first `n`
bytes.  When `n` is at least the byte length this is the identity; when `n`
falls strictly inside the encoding of a character the Rust call panics,
modelled by `none`. -/
def truncBytes : List Char → Nat → Option (List Char)
  | _, 0 => some []
  | [], _ + 1 => some []
  | c :: rest, n + 1 =>
    if charBytes c ≤ n + 1 then
      (truncBytes rest (n + 1 - charBytes c)).map (fun t => c :: t)
    else none

/-- One preview field of `enrich_span`: if the preview is longer than 500
bytes, truncate it to 500 bytes and append `"..."`. -/
def truncatePreview (p : List Char) : Option (List Char) :=
  if utf8Len p > 500 then (truncBytes p 500).map (fun t => t ++ "...".data)
  else some p

/-- Lift `truncatePreview` over an optional preview field. -/
def truncatePreviewOpt : Option (List Char) → Option (Option (List Char))
  | none => some none
  | some p => (truncatePreview p).map some

/-- The first two steps of `enrich_span`: derive `duration_ms` and default
an empty `service_name` to `"unknown"`. -/
def enrich_base (span : Span) : Span :=
  let s := span.calculate_duration
  if s.service_name = "" then { s with service_name := "unknown" } else s

/-- `enrich_span` (collector/pipeline.rs): derive `duration_ms`, default an
empty `service_name` to `"unknown"`, and truncate both previews.  The result
is `none` exactly when the Rust function panics (inside
`String::truncate`). -/
def enrich_span (span : Span) : Option Span := do
  let s := enrich_base span
  let pp ← truncatePreviewOpt s.prompt_preview
  let cp ← truncatePreviewOpt s.completion_preview
  pure { s with prompt_preview := pp, completion_preview := cp }

/-! ## Pub/sub fan-out: `RedisStreamer::publish_span` (db/redis.rs)

The span is serialized once and then published with three sequential
`publish(..)?` statements.  We abstract the broker by a success oracle
`ok : String → Bool` on channel names and record, in order, the channels on
which a publish was attempted together with the overall outcome (`false` =
the function returned `Err` to its caller). -/

/-- The channels applicable to a span, in the order the source publishes
them: the global channel, the per-trace channel, and — only for LLM
spans — the LLM channel. -/
def channelsFor (s : Span) : List String :=
  ["agenttrace:spans", "agenttrace:trace:" ++ s.trace_id]
    ++ (if s.is_llm_call then ["agenttrace:llm"] else [])

/-- `RedisStreamer::publish_span`, with each `publish(..)?` modelled by a
test of the oracle: a failing publish returns the error to the caller
immediately (the `?` operator), so later channels are not attempted. -/
def publish_span (ok : String → Bool) (s : Span) : List String × Bool :=
  let c1 := "agenttrace:spans"
  if !ok c1 then ([c1], false)
  else
    let c2 := "agenttrace:trace:" ++ s.trace_id
    if !ok c2 then ([c1, c2], false)
    else if s.is_llm_call then
      let c3 := "agenttrace:llm"
      if !ok c3 then ([c1, c2, c3], false) else ([c1, c2, c3], true)
    else ([c1, c2], true)

/-- The initial segment of a channel list that sequential early-exit
publishing attempts: every channel up to and including the first failing
one. -/
def attemptedChannels (ok : String → Bool) : List String → List String
  | [] => []
  | c :: rest => if ok c then c :: attemptedChannels ok rest else [c]

/-! ## Storage adapter: span upsert (db/postgres.rs)

The `spans` table is keyed on `(span_id, started_at)`.  `insert` uses
`ON CONFLICT .. DO UPDATE` over a fixed set of mutable columns;
`insert_batch` uses `ON CONFLICT .. DO NOTHING` for every span in the
batch.  The table is modelled as a list of rows. -/

/-- The conflict key of the `spans` hypertable. -/
def spanKey (s : Span) : String × Int :=
  (s.span_id, s.started_at)

/-- The `DO UPDATE SET` clause of `SpanRepository::insert`: overwrite
exactly the ten mutable columns from the excluded (new) row, keeping every
other column of the old row. -/
def applyConflictUpdate (old new : Span) : Span :=
  { old with
    ended_at := new.ended_at
    duration_ms := new.duration_ms
    status := new.status
    status_message := new.status_message
    tokens_in := new.tokens_in
    tokens_out := new.tokens_out
    cost_usd := new.cost_usd
    tool_output := new.tool_output
    completion_preview := new.completion_preview
    events := new.events }

/-- `SpanRepository::insert` (single-insert path): insert the row, and on a
key conflict overwrite the mutable columns of the existing row. -/
def SpanRepository.insert (db : List Span) (s : Span) : List Span :=
  if db.any (fun r => spanKey r = spanKey s) then
    db.map (fun r => if spanKey r = spanKey s then applyConflictUpdate r s else r)
  else db ++ [s]

/-- One step of `SpanRepository::insert_batch` (bulk path): insert the row,
and on a key conflict DO NOTHING. -/
def insertBatchOne (db : List Span) (s : Span) : List Span :=
  if db.any (fun r => spanKey r = spanKey s) then db else db ++ [s]

/-- `SpanRepository::insert_batch`: the spans of the batch are inserted in
order inside one transaction, each with `ON CONFLICT DO NOTHING`. -/
def SpanRepository.insert_batch (db : List Span) (spans : List Span) : List Span :=
  spans.foldl insertBatchOne db

/-! ## Alert evaluator (alerting/evaluator.rs, models/alert.rs)

UUIDs are opaque `Nat`s; timestamps are `Int`s.  The evaluator's in-memory
maps `failure_counts` and `active_alerts` are association lists keyed by
rule id.  The human-readable `message` field of an event (a formatted
string of the metric, operator phrase and rounded numbers) is not referenced
by any claim and is left out of the event model.  Calls the evaluator makes
on the alert repository are recorded as an explicit action list. -/

/-- Comparison operator of a rule (`Operator` in `models/alert.rs`). -/
inductive Operator where
  | gt
  | lt
  | eq
  | gte
  | lte
  | ne
deriving DecidableEq, Repr

/-- Severity of a rule / event (`Severity` in `models/alert.rs`). -/
inductive Severity where
  | info
  | warning
  | critical
deriving DecidableEq, Repr

/-- Status of an alert event (`AlertStatus` in `models/alert.rs`). -/
inductive AlertStatus where
  | active
  | acknowledged
  | resolved
deriving DecidableEq, Repr

/-- The fields of `AlertRule` the evaluator reads. -/
structure AlertRule where
  id : Nat
  name : String
  service_name : Option String
  model_name : Option String
  metric : String
  operator : Operator
  threshold : Option ℚ
  window_minutes : Int
  consecutive_failures : Int
  severity : Severity
  enabled : Bool
deriving DecidableEq, Repr

/-- `f64::EPSILON` = 2⁻⁵², used by `AlertRule::check` for `Eq`/`Ne`. -/
def f64Epsilon : ℚ :=
  1 / 4503599627370496

/-- `AlertRule::check`: whether a metric value breaches the rule's
threshold; a rule without a threshold never breaches. -/
def AlertRule.check (rule : AlertRule) (value : ℚ) : Bool :=
  match rule.threshold with
  | none => false
  | some threshold =>
    match rule.operator with
    | Operator.gt => value > threshold
    | Operator.lt => value < threshold
    | Operator.eq => |value - threshold| < f64Epsilon
    | Operator.gte => value ≥ threshold
    | Operator.lte => value ≤ threshold
    | Operator.ne => |value - threshold| ≥ f64Epsilon

/-- A fetched metric value (`MetricValue` in `alerting/evaluator.rs`). -/
structure MetricValue where
  value : ℚ
  sample_trace_ids : List String
  timestamp : Int
deriving DecidableEq, Repr

/-- An alert event (`AlertEvent` in `models/alert.rs`, without the
formatted `message`, the notification records and the JSON metadata, none
of which any claim mentions). -/
structure AlertEvent where
  id : Nat
  rule_id : Nat
  triggered_at : Int
  resolved_at : Option Int
  status : AlertStatus
  severity : Severity
  metric_value : ℚ
  threshold_value : ℚ
  service_name : Option String
  trace_ids : List String
deriving DecidableEq, Repr

/-- The evaluator's process-local state: consecutive-failure counters and
currently-active events, both `HashMap`s keyed by rule id, modelled as
partial functions (`none` = key absent). -/
structure EvaluatorState where
  failure_counts : Nat → Option Int
  active_alerts : Nat → Option AlertEvent

/-- The state before any evaluation: no counters, no active alerts. -/
def healthyState : EvaluatorState :=
  { failure_counts := fun _ => none, active_alerts := fun _ => none }

/-- Calls `evaluate_rule` makes on the alert repository. -/
inductive RepoAction where
  | create_event (event : AlertEvent)
  | update_last_triggered (rule_id : Nat)
  | update_event_notifications (event_id : Nat)
  | resolve_event (event_id : Nat)
  | update_last_evaluated (rule_id : Nat)
deriving DecidableEq, Repr

/-- The alert event `handle_breach` creates when the consecutive-failure
threshold is reached: status active, severity inherited from the rule,
`threshold_value = rule.threshold ?? 0`, trace ids sampled from the
metric. -/
def breachEvent (now : Int) (fresh_id : Nat) (rule : AlertRule)
    (metric : MetricValue) : AlertEvent :=
  { id := fresh_id
  , rule_id := rule.id
  , triggered_at := now
  , resolved_at := none
  , status := AlertStatus.active
  , severity := rule.severity
  , metric_value := metric.value
  , threshold_value := rule.threshold.getD 0
  , service_name := rule.service_name
  , trace_ids := metric.sample_trace_ids }

/-- `AlertEvaluator::handle_breach`: bump the consecutive-failure counter;
below the rule's `consecutive_failures` threshold, or while an event for the
rule is already active, do nothing more; otherwise create the alert event
(freshly identified by `fresh_id`, triggered at `now`) and install it as the
rule's active alert.  Returns the created event, if any. -/
def handle_breach (now : Int) (fresh_id : Nat) (rule : AlertRule)
    (metric : MetricValue) (st : EvaluatorState) :
    EvaluatorState × Option AlertEvent :=
  let count := (st.failure_counts rule.id).getD 0 + 1
  let st1 :=
    { st with failure_counts := Function.update st.failure_counts rule.id (some count) }
  if count < rule.consecutive_failures then (st1, none)
  else if (st1.active_alerts rule.id).isSome then (st1, none)
  else
    let event := breachEvent now fresh_id rule metric
    ({ st1 with
        active_alerts := Function.update st1.active_alerts rule.id (some event) },
      some event)

/-- `AlertEvaluator::handle_recovery`: clear the rule's failure counter and
resolve its active event if there is one. -/
def handle_recovery (now : Int) (rule : AlertRule) (st : EvaluatorState) :
    EvaluatorState × Option AlertEvent :=
  let st1 := { st with failure_counts := Function.update st.failure_counts rule.id none }
  match st1.active_alerts rule.id with
  | some event =>
    ({ st1 with active_alerts := Function.update st1.active_alerts rule.id none },
      some { event with status := AlertStatus.resolved, resolved_at := some now })
  | none => (st1, none)

/-- `AlertEvaluator::evaluate_rule`, with the storage adapter's answer to
the metric query passed in as `metricResult` (`none` models the
no-data case).  Returns the updated state and the repository actions the
evaluation performed, in order. -/
def evaluate_rule (now : Int) (fresh_id : Nat) (rule : AlertRule)
    (metricResult : Option MetricValue) (st : EvaluatorState) :
    EvaluatorState × List RepoAction :=
  match metricResult with
  | none => (st, [])
  | some metric =>
    if rule.check metric.value then
      let (st1, created) := handle_breach now fresh_id rule metric st
      let acts :=
        match created with
        | some event =>
          [RepoAction.create_event event,
           RepoAction.update_last_triggered rule.id,
           RepoAction.update_event_notifications event.id]
        | none => []
      (st1, acts ++ [RepoAction.update_last_evaluated rule.id])
    else
      let (st1, resolved) := handle_recovery now rule st
      let acts :=
        match resolved with
        | some event => [RepoAction.resolve_event event.id]
        | none => []
      (st1, acts ++ [RepoAction.update_last_evaluated rule.id])

/-- A run of `n` consecutive breaching calls to `handle_breach`, starting
from the healthy state; collects every event the run created, in creation
order.  The `k`-th call (counting from 0) is stamped with time `k` and fresh
event id `k`; neither value influences anything but the created event's
`id` and `triggered_at`. -/
def breachRun (rule : AlertRule) (metric : MetricValue) :
    Nat → EvaluatorState × List AlertEvent
  | 0 => (healthyState, [])
  | n + 1 =>
    let (st, events) := breachRun rule metric n
    let (st1, created) := handle_breach (n : Int) n rule metric st
    (st1, events ++ created.toList)

/-! ## Concrete sample inputs used by the theorems below -/

/-- The span of the spec's Claude-Sonnet-4 costing scenario. -/
def claudeSpan : Span :=
  { baseSpan with
    model_name := some "claude-sonnet-4-20250514"
    tokens_in := some 1000
    tokens_out := some 500 }

/-- An LLM span with reasoning tokens (an o1-style call priced as gpt-4o,
an exact pricing-table key). -/
def reasoningSpan : Span :=
  { baseSpan with
    model_name := some "gpt-4o"
    tokens_in := some 1000
    tokens_out := some 500
    tokens_reasoning := some 1000 }

/-- An LLM span (exact pricing key, no token counts). -/
def llmSpan : Span :=
  { baseSpan with model_name := some "gpt-4o" }

/-- Doubling of `tokens_in` and `tokens_out`, all other fields unchanged. -/
def doubleTokens (s : Span) : Span :=
  { s with
    tokens_in := s.tokens_in.map (fun t => 2 * t)
    tokens_out := s.tokens_out.map (fun t => 2 * t) }

/-- First submission of a span (see the idempotent-ingestion law). -/
def firstSubmission : Span :=
  { baseSpan with tokens_in := some 5 }

/-- Re-submission of the same span (same `span_id`, `started_at`) with a
different mutable field. -/
def secondSubmission : Span :=
  { baseSpan with tokens_in := some 99 }

/-- A span submitted with a 1000-character ASCII prompt preview (the
spec's preview-truncation scenario). -/
def asciiPromptSpan : Span :=
  { baseSpan with prompt_preview := some (List.replicate 1000 'a') }

/-- A sample enabled threshold rule with `consecutive_failures = 3`. -/
def sampleRule : AlertRule :=
  { id := 7
  , name := "high-error-rate"
  , service_name := some "svc"
  , model_name := none
  , metric := "error_rate"
  , operator := Operator.gt
  , threshold := some 5
  , window_minutes := 5
  , consecutive_failures := 3
  , severity := Severity.critical
  , enabled := true }

/-- A sample breaching metric value for `sampleRule`. -/
def sampleMetric : MetricValue :=
  { value := 10, sample_trace_ids := ["t1"], timestamp := 0 }

/-! ## Helper lemmas about `find_pricing` under an arbitrary map order -/

/-- A list of pricing entries with pairwise distinct keys determines its
entries: the exact lookup of a member's key returns that member's value. -/
theorem lookupExact_of_mem (l : List (String × ModelPricing))
    (hnd : (l.map Prod.fst).Nodup) (kv : String × ModelPricing) (hkv : kv ∈ l) :
    lookupExact l kv.1 = some kv.2 := by
  induction l with
  | nil => cases hkv
  | cons a l ih =>
    rw [List.map_cons, List.nodup_cons] at hnd
    rcases List.mem_cons.mp hkv with rfl | hmem
    · simp [lookupExact, List.find?_cons_of_pos]
    · have hne : ¬ (a.1 = kv.1) := by
        intro he
        exact hnd.1 (he ▸ List.mem_map_of_mem Prod.fst hmem)
      have htail := ih hnd.2 hmem
      simp only [lookupExact] at htail ⊢
      rw [List.find?_cons_of_neg _ (by simpa using hne)]
      exact htail

/-- If no table key equals `name` but some key of the default table is a
prefix of `name`, then on ANY permutation of the default table
`find_pricing` returns the value of SOME prefix-matching key (which one
depends on the order). -/
theorem find_pricing_of_perm (table : List (String × ModelPricing))
    (h : defaultPricing.Perm table) (name : String)
    (hnoexact : ∀ kv ∈ defaultPricing, ¬ kv.1 = name)
    (hsome : ∃ kv ∈ defaultPricing, keyMatchesAtStart name kv.1 = true) :
    ∃ kv ∈ defaultPricing, keyMatchesAtStart name kv.1 = true ∧
      find_pricing table name = some kv.2 := by
  obtain ⟨kv₀, hkv₀, hpref₀⟩ := hsome
  have hexact : table.find? (fun kv => kv.1 = name) = none := by
    rw [List.find?_eq_none]
    intro kv hkv
    simpa using hnoexact kv (h.mem_iff.mpr hkv)
  cases hfp : table.find? (fun kv => keyMatchesAtStart name kv.1) with
  | none =>
    exfalso
    rw [List.find?_eq_none] at hfp
    exact absurd hpref₀ (by simpa using hfp kv₀ (h.mem_iff.mp hkv₀))
  | some kv =>
    have hkvt : kv ∈ table := List.mem_of_find?_eq_some hfp
    have hpred : keyMatchesAtStart name kv.1 = true := by
      simpa using List.find?_some hfp
    refine ⟨kv, h.mem_iff.mpr hkvt, hpred, ?_⟩
    simp only [find_pricing, lookupExact, hexact, Option.map_none', hfp]

/-- When additionally the prefix-matching KEY of the default table is
unique, `find_pricing` is order-independent: every permutation of the table
returns that key's entry. -/
theorem find_pricing_of_perm_unique (table : List (String × ModelPricing))
    (h : defaultPricing.Perm table) (name key : String) (pr : ModelPricing)
    (hnoexact : ∀ kv ∈ defaultPricing, ¬ kv.1 = name)
    (hlook : lookupExact defaultPricing key = some pr)
    (hsome : ∃ kv ∈ defaultPricing, keyMatchesAtStart name kv.1 = true)
    (huniq : ∀ kv ∈ defaultPricing, keyMatchesAtStart name kv.1 = true → kv.1 = key) :
    find_pricing table name = some pr := by
  obtain ⟨kv, hkvd, hkvp, hres⟩ := find_pricing_of_perm table h name hnoexact hsome
  have hself : lookupExact defaultPricing kv.1 = some kv.2 :=
    lookupExact_of_mem defaultPricing (by decide) kv hkvd
  rw [huniq kv hkvd hkvp, hlook] at hself
  rw [hres, Option.some.inj hself]

/-- The cost formula `calculate` writes whenever the model is priced:
`(tokens_in/1e6)·input_rate + ((tokens_out + tokens_reasoning)/1e6)·output_rate`,
missing counts read as zero. -/
theorem calculate_cost_eq (table : List (String × ModelPricing)) (s : Span)
    (name : String) (pr : ModelPricing)
    (hname : s.model_name = some name) (hpr : find_pricing table name = some pr) :
    (calculate table s).cost_usd =
      some (((s.tokens_in.getD 0 : Int) : ℚ) / 1000000 * pr.input_per_million +
        (((s.tokens_out.getD 0 : Int) : ℚ) + ((s.tokens_reasoning.getD 0 : Int) : ℚ))
          / 1000000 * pr.output_per_million) := by
  simp [calculate, Span.is_llm_call, hname, hpr]

/-! ## Helper lemmas about span enrichment -/

/-- The duration and service-name steps of enrichment do not touch the
prompt preview. -/
theorem enrich_base_prompt (s : Span) :
    (enrich_base s).prompt_preview = s.prompt_preview := by
  unfold enrich_base Span.calculate_duration
  cases h : s.ended_at <;> simp [h] <;> split <;> rfl

/-- The duration and service-name steps of enrichment do not touch the
completion preview. -/
theorem enrich_base_completion (s : Span) :
    (enrich_base s).completion_preview = s.completion_preview := by
  unfold enrich_base Span.calculate_duration
  cases h : s.ended_at <;> simp [h] <;> split <;> rfl

/-- `enrich_span` as the two preview truncations bound over the enriched
base span; `none` propagates a truncation panic. -/
theorem enrich_span_bind (s : Span) :
    enrich_span s =
      (truncatePreviewOpt s.prompt_preview).bind (fun pp =>
        (truncatePreviewOpt s.completion_preview).bind (fun cp =>
          some { enrich_base s with prompt_preview := pp, completion_preview := cp })) := by
  unfold enrich_span
  dsimp only
  rw [enrich_base_prompt, enrich_base_completion]
  rfl

/-- UTF-8 byte length adds over concatenation. -/
theorem utf8Len_append (a b : List Char) :
    utf8Len (a ++ b) = utf8Len a + utf8Len b := by
  simp [utf8Len]

/-- A successful byte-truncation keeps exactly `min n (utf8Len s)` bytes. -/
theorem truncBytes_utf8Len (s : List Char) : ∀ (n : Nat) (t : List Char),
    truncBytes s n = some t → utf8Len t = min n (utf8Len s) := by
  induction s with
  | nil =>
    intro n t h
    cases n with
    | zero =>
      simp only [truncBytes, Option.some.injEq] at h
      subst h
      simp [utf8Len]
    | succ n =>
      simp only [truncBytes, Option.some.injEq] at h
      subst h
      simp [utf8Len]
  | cons c rest ih =>
    intro n t h
    cases n with
    | zero =>
      simp only [truncBytes, Option.some.injEq] at h
      subst h
      simp [utf8Len]
    | succ n =>
      rw [truncBytes] at h
      by_cases hc : charBytes c ≤ n + 1
      · rw [if_pos hc] at h
        cases ht : truncBytes rest (n + 1 - charBytes c) with
        | none => rw [ht] at h; cases h
        | some t' =>
          rw [ht] at h
          simp only [Option.map_some', Option.some.injEq] at h
          subst h
          have hrec := ih (n + 1 - charBytes c) t' ht
          simp only [utf8Len, List.map_cons, List.sum_cons] at *
          omega
      · rw [if_neg hc] at h
        cases h

/-- On an all-ASCII string (one byte per character), byte truncation is
`List.take` and never panics. -/
theorem truncBytes_ascii (s : List Char) : ∀ n : Nat,
    (∀ c ∈ s, charBytes c = 1) → truncBytes s n = some (s.take n) := by
  induction s with
  | nil => intro n _; cases n <;> rfl
  | cons c rest ih =>
    intro n h
    cases n with
    | zero => rfl
    | succ n =>
      have hc : charBytes c = 1 := h c (List.mem_cons_self c rest)
      rw [truncBytes, if_pos (by omega), hc]
      simp only [Nat.add_sub_cancel]
      rw [ih n (fun x hx => h x (List.mem_cons_of_mem c hx))]
      rfl

/-- On an all-ASCII string the byte length is the character count. -/
theorem utf8Len_ascii (s : List Char) (h : ∀ c ∈ s, charBytes c = 1) :
    utf8Len s = s.length := by
  induction s with
  | nil => rfl
  | cons c rest ih =>
    simp only [utf8Len, List.map_cons, List.sum_cons, List.length_cons] at *
    rw [h c (List.mem_cons_self c rest),
      ih (fun x hx => h x (List.mem_cons_of_mem c hx))]
    omega

/-! ## Claims -/

/-- Claim C1, counterexample.  The claim asserts a deterministic
longest-prefix selection: "gpt-4o-mini-2024" must always select the entry
for key "gpt-4o-mini", never "gpt-4".  But `find_pricing` returns the FIRST
prefix-matching key in the `HashMap`'s unspecified iteration order: on the
source's insertion order it returns the entry for "gpt-4" (rates 30/60),
and on the reversed order — a permutation of the very same map — it returns
the entry for "gpt-4o-mini" (rates 0.15/0.60).  The selection is therefore
neither longest-prefix nor even a function of the map's contents alone. -/
theorem find_pricing_order_dependent :
    defaultPricing.Perm defaultPricing.reverse ∧
    find_pricing defaultPricing "gpt-4o-mini-2024" = some gpt4Pricing ∧
    find_pricing defaultPricing.reverse "gpt-4o-mini-2024" = some gpt4oMiniPricing ∧
    gpt4Pricing ≠ gpt4oMiniPricing :=
  ⟨(List.reverse_perm defaultPricing).symm, rfl, rfl, by
    simp only [gpt4Pricing, gpt4oMiniPricing, ne_eq, ModelPricing.mk.injEq, not_and]
    intro h
    exact absurd h (by norm_num)⟩

/-- Claim C1, amended.  The selection tries an exact key match first;
otherwise it returns the entry of the first key in the map's (unspecified)
iteration order that is a prefix of `model_name`, otherwise the first whose
key is a substring.  So for "gpt-4o-mini-2024" the selected entry is
confined to the prefix-matching keys — one of "gpt-4", "gpt-4o",
"gpt-4o-mini" — but which of the three it is depends on the iteration
order; no longest-prefix or lexicographic tie-break exists. -/
theorem find_pricing_prefix_confined (table : List (String × ModelPricing))
    (h : defaultPricing.Perm table) :
    find_pricing table "gpt-4o-mini-2024" = some gpt4Pricing ∨
    find_pricing table "gpt-4o-mini-2024" = some gpt4oPricing ∨
    find_pricing table "gpt-4o-mini-2024" = some gpt4oMiniPricing := by
  obtain ⟨kv, hkvd, hkvp, hres⟩ :=
    find_pricing_of_perm table h "gpt-4o-mini-2024" (by decide) (by decide)
  have henum : ∀ kv ∈ defaultPricing,
      keyMatchesAtStart "gpt-4o-mini-2024" kv.1 = true →
      kv.1 = "gpt-4" ∨ kv.1 = "gpt-4o" ∨ kv.1 = "gpt-4o-mini" := by decide
  have hself : lookupExact defaultPricing kv.1 = some kv.2 :=
    lookupExact_of_mem defaultPricing (by decide) kv hkvd
  rcases henum kv hkvd hkvp with h1 | h1 | h1
  · rw [h1] at hself
    have h2 : kv.2 = gpt4Pricing := Option.some.inj (hself.symm.trans (by rfl))
    exact Or.inl (hres.trans (congrArg some h2))
  · rw [h1] at hself
    have h2 : kv.2 = gpt4oPricing := Option.some.inj (hself.symm.trans (by rfl))
    exact Or.inr (Or.inl (hres.trans (congrArg some h2)))
  · rw [h1] at hself
    have h2 : kv.2 = gpt4oMiniPricing := Option.some.inj (hself.symm.trans (by rfl))
    exact Or.inr (Or.inr (hres.trans (congrArg some h2)))

/-- Claim C1, witness for the amended theorem at the identity
permutation. -/
theorem find_pricing_prefix_confined_witness :
    find_pricing defaultPricing "gpt-4o-mini-2024" = some gpt4Pricing ∨
    find_pricing defaultPricing "gpt-4o-mini-2024" = some gpt4oPricing ∨
    find_pricing defaultPricing "gpt-4o-mini-2024" = some gpt4oMiniPricing :=
  find_pricing_prefix_confined defaultPricing (List.Perm.refl _)

/-- Claim C2.  Whenever the model of an LLM span is priced, `calculate`
sets `cost_usd = (tokens_in/1e6)·input_rate +
((tokens_out + tokens_reasoning)/1e6)·output_rate`, missing token counts
reading as zero and reasoning tokens billed at the output rate; and for the
span `{model := "claude-sonnet-4-20250514", tokens_in := 1000,
tokens_out := 500}` the computed cost is within 1e-4 of 0.0105 on every
iteration order of the pricing map (the only matching key is
"claude-sonnet-4", so the order cannot matter; the cost is exactly
0.0105). -/
theorem calculate_cost_formula :
    (∀ (table : List (String × ModelPricing)) (s : Span) (name : String)
        (pr : ModelPricing), s.model_name = some name →
        find_pricing table name = some pr →
        (calculate table s).cost_usd =
          some (((s.tokens_in.getD 0 : Int) : ℚ) / 1000000 * pr.input_per_million +
            (((s.tokens_out.getD 0 : Int) : ℚ) + ((s.tokens_reasoning.getD 0 : Int) : ℚ))
              / 1000000 * pr.output_per_million)) ∧
    (∀ table : List (String × ModelPricing), defaultPricing.Perm table →
        ∃ c : ℚ, (calculate table claudeSpan).cost_usd = some c ∧
          |c - 0.0105| < 1 / 10000) := by
  constructor
  · exact calculate_cost_eq
  · intro table h
    have hfp : find_pricing table "claude-sonnet-4-20250514" = some claudeSonnet4Pricing :=
      find_pricing_of_perm_unique table h _ "claude-sonnet-4" _
        (by decide) rfl (by decide) (by decide)
    have hc := calculate_cost_eq table claudeSpan "claude-sonnet-4-20250514" _ rfl hfp
    exact ⟨_, hc, by norm_num [claudeSpan, baseSpan, claudeSonnet4Pricing]⟩

/-- Claim C2, witness: the formula and the concrete scenario instantiated
on the source's insertion order. -/
theorem calculate_cost_formula_witness :
    (calculate defaultPricing claudeSpan).cost_usd =
      some (((claudeSpan.tokens_in.getD 0 : Int) : ℚ) / 1000000
          * claudeSonnet4Pricing.input_per_million +
        (((claudeSpan.tokens_out.getD 0 : Int) : ℚ) +
          ((claudeSpan.tokens_reasoning.getD 0 : Int) : ℚ)) / 1000000
          * claudeSonnet4Pricing.output_per_million) ∧
    (∃ c : ℚ, (calculate defaultPricing claudeSpan).cost_usd = some c ∧
      |c - 0.0105| < 1 / 10000) :=
  ⟨calculate_cost_formula.1 defaultPricing claudeSpan "claude-sonnet-4-20250514"
      claudeSonnet4Pricing rfl rfl,
   calculate_cost_formula.2 defaultPricing (List.Perm.refl _)⟩

/-- Claim C9, counterexample.  The claim quantifies over every LLM span,
"all other fields, including tokens_reasoning, unchanged": for the span
`{model := "gpt-4o", tokens_in := 1000, tokens_out := 500,
tokens_reasoning := 1000}` ("gpt-4o" is an exact table key, so the map
order is irrelevant) the cost is 0.0175, but doubling `tokens_in` and
`tokens_out` gives 0.025 ≠ 2·0.0175 = 0.035: the reasoning tokens are
billed once at the output rate and are not doubled. -/
theorem cost_not_linear_with_reasoning :
    (calculate defaultPricing reasoningSpan).cost_usd = some (7 / 400) ∧
    (calculate defaultPricing (doubleTokens reasoningSpan)).cost_usd = some (1 / 40) ∧
    (1 / 40 : ℚ) ≠ 2 * (7 / 400) := by
  have hpr : find_pricing defaultPricing "gpt-4o" = some gpt4oPricing := rfl
  have h1 := calculate_cost_eq defaultPricing reasoningSpan "gpt-4o" _ rfl hpr
  have h2 := calculate_cost_eq defaultPricing (doubleTokens reasoningSpan) "gpt-4o" _ rfl hpr
  refine ⟨?_, ?_, by norm_num⟩
  · rw [h1]
    norm_num [reasoningSpan, baseSpan, gpt4oPricing]
  · rw [h2]
    norm_num [doubleTokens, reasoningSpan, baseSpan, gpt4oPricing]

/-- Claim C9, amended.  Doubling `tokens_in` and `tokens_out` of a priced
LLM span doubles `cost_usd` provided the span has no reasoning tokens
(absent or zero); with nonzero reasoning tokens the output charge contains
the constant term `tokens_reasoning/1e6 · output_rate` and linearity
fails (see the counterexample). -/
theorem cost_linear_without_reasoning (table : List (String × ModelPricing))
    (s : Span) (name : String) (pr : ModelPricing)
    (hname : s.model_name = some name) (hpr : find_pricing table name = some pr)
    (hreas : s.tokens_reasoning.getD 0 = 0) :
    (calculate table (doubleTokens s)).cost_usd =
      ((calculate table s).cost_usd).map (fun c => 2 * c) := by
  have h1 := calculate_cost_eq table s name pr hname hpr
  have h2 := calculate_cost_eq table (doubleTokens s) name pr hname hpr
  have hin : (doubleTokens s).tokens_in.getD 0 = 2 * s.tokens_in.getD 0 := by
    cases hc : s.tokens_in <;> simp [doubleTokens, hc]
  have hout : (doubleTokens s).tokens_out.getD 0 = 2 * s.tokens_out.getD 0 := by
    cases hc : s.tokens_out <;> simp [doubleTokens, hc]
  have hr : (doubleTokens s).tokens_reasoning.getD 0 = 0 := by
    simpa [doubleTokens] using hreas
  rw [h1, h2, hin, hout, hr, hreas]
  simp only [Option.map_some']
  congr 1
  push_cast
  ring

/-- Claim C9, witness for the amended linearity at a reasoning-free
span. -/
theorem cost_linear_without_reasoning_witness :
    (calculate defaultPricing (doubleTokens claudeSpan)).cost_usd =
      ((calculate defaultPricing claudeSpan).cost_usd).map (fun c => 2 * c) :=
  cost_linear_without_reasoning defaultPricing claudeSpan
    "claude-sonnet-4-20250514" claudeSonnet4Pricing rfl rfl rfl
/-- Claim C4, counterexample.  The ingestion pipeline persists through
`insert_batch`, whose conflict clause is `DO NOTHING`: submitting the same
span twice (same `span_id`, `started_at`) does leave exactly one row, but
the row keeps the FIRST submission's `tokens_in = 5`, not the latest
submission's `tokens_in = 99` as the claim requires. -/
theorem ingest_batch_keeps_first_values :
    SpanRepository.insert_batch
        (SpanRepository.insert_batch [] [firstSubmission]) [secondSubmission]
      = [firstSubmission] ∧
    spanKey secondSubmission = spanKey firstSubmission ∧
    firstSubmission.tokens_in = some 5 ∧
    secondSubmission.tokens_in = some 99 ∧
    (some 5 : Option Int) ≠ some 99 := by
  refine ⟨by decide, by decide, by decide, by decide, by decide⟩

/-- Claim C4, amended.  Re-submitting a span with the same conflict key
leaves exactly one row either way, but the two repository paths differ: the
pipeline's bulk path (`insert_batch`, `ON CONFLICT DO NOTHING`) keeps the
first submission's row unchanged, while the single-insert path (`insert`,
`ON CONFLICT DO UPDATE`) overwrites exactly the ten mutable columns
(`ended_at`, `duration_ms`, `status`, `status_message`, `tokens_in`,
`tokens_out`, `cost_usd`, `tool_output`, `completion_preview`, `events`)
with the latest submission's values, keeping all other columns (for
example `model_name`, `prompt_preview`, `tokens_reasoning`) from the first
submission. -/
theorem upsert_batch_vs_single (db : List Span) (s s' : Span)
    (hfresh : ∀ r ∈ db, spanKey r ≠ spanKey s)
    (hkey : spanKey s' = spanKey s) :
    SpanRepository.insert_batch (SpanRepository.insert_batch db [s]) [s'] = db ++ [s] ∧
    SpanRepository.insert (SpanRepository.insert db s) s' =
      db ++ [applyConflictUpdate s s'] ∧
    (applyConflictUpdate s s').ended_at = s'.ended_at ∧
    (applyConflictUpdate s s').duration_ms = s'.duration_ms ∧
    (applyConflictUpdate s s').status = s'.status ∧
    (applyConflictUpdate s s').status_message = s'.status_message ∧
    (applyConflictUpdate s s').tokens_in = s'.tokens_in ∧
    (applyConflictUpdate s s').tokens_out = s'.tokens_out ∧
    (applyConflictUpdate s s').cost_usd = s'.cost_usd ∧
    (applyConflictUpdate s s').tool_output = s'.tool_output ∧
    (applyConflictUpdate s s').completion_preview = s'.completion_preview ∧
    (applyConflictUpdate s s').events = s'.events ∧
    (applyConflictUpdate s s').model_name = s.model_name ∧
    (applyConflictUpdate s s').prompt_preview = s.prompt_preview ∧
    (applyConflictUpdate s s').tokens_reasoning = s.tokens_reasoning := by
  have hany : db.any (fun r => spanKey r = spanKey s) = false := by
    simp only [List.any_eq_false, decide_eq_true_eq]
    exact hfresh
  have hfirst : SpanRepository.insert_batch db [s] = db ++ [s] := by
    simp only [SpanRepository.insert_batch, List.foldl_cons, List.foldl_nil,
      insertBatchOne]
    rw [if_neg (by simp [hany])]
  have hsingle : SpanRepository.insert db s = db ++ [s] := by
    simp only [SpanRepository.insert]
    rw [if_neg (by simp [hany])]
  refine ⟨?_, ?_, rfl, rfl, rfl, rfl, rfl, rfl, rfl, rfl, rfl, rfl, rfl, rfl, rfl⟩
  · rw [hfirst]
    simp only [SpanRepository.insert_batch, List.foldl_cons, List.foldl_nil,
      insertBatchOne]
    rw [if_pos (by simp [hkey])]
  · rw [hsingle]
    simp only [SpanRepository.insert]
    rw [if_pos (by simp [hkey])]
    rw [List.map_append]
    congr 1
    · have hid : ∀ r ∈ db,
          (if spanKey r = spanKey s' then applyConflictUpdate r s' else r) = r := by
        intro r hr
        exact if_neg (by rw [hkey]; exact hfresh r hr)
      exact (List.map_congr_left hid).trans (List.map_id db)
    · simp [hkey]

/-- Claim C4, witness for the amended upsert semantics on a concrete
duplicate submission. -/
theorem upsert_batch_vs_single_witness :
    SpanRepository.insert_batch
        (SpanRepository.insert_batch [] [firstSubmission]) [secondSubmission]
      = [] ++ [firstSubmission] ∧
    SpanRepository.insert (SpanRepository.insert [] firstSubmission) secondSubmission =
      [] ++ [applyConflictUpdate firstSubmission secondSubmission] ∧
    (applyConflictUpdate firstSubmission secondSubmission).ended_at =
      secondSubmission.ended_at ∧
    (applyConflictUpdate firstSubmission secondSubmission).duration_ms =
      secondSubmission.duration_ms ∧
    (applyConflictUpdate firstSubmission secondSubmission).status =
      secondSubmission.status ∧
    (applyConflictUpdate firstSubmission secondSubmission).status_message =
      secondSubmission.status_message ∧
    (applyConflictUpdate firstSubmission secondSubmission).tokens_in =
      secondSubmission.tokens_in ∧
    (applyConflictUpdate firstSubmission secondSubmission).tokens_out =
      secondSubmission.tokens_out ∧
    (applyConflictUpdate firstSubmission secondSubmission).cost_usd =
      secondSubmission.cost_usd ∧
    (applyConflictUpdate firstSubmission secondSubmission).tool_output =
      secondSubmission.tool_output ∧
    (applyConflictUpdate firstSubmission secondSubmission).completion_preview =
      secondSubmission.completion_preview ∧
    (applyConflictUpdate firstSubmission secondSubmission).events =
      secondSubmission.events ∧
    (applyConflictUpdate firstSubmission secondSubmission).model_name =
      firstSubmission.model_name ∧
    (applyConflictUpdate firstSubmission secondSubmission).prompt_preview =
      firstSubmission.prompt_preview ∧
    (applyConflictUpdate firstSubmission secondSubmission).tokens_reasoning =
      firstSubmission.tokens_reasoning :=
  upsert_batch_vs_single [] firstSubmission secondSubmission
    (by simp) (by decide)

/-- Claim C5, counterexample.  The wire channel names carry the
`agenttrace:` prefix: an LLM span is published to `agenttrace:spans`,
`agenttrace:trace:<trace_id>` and `agenttrace:llm`, and to none of the
bare names `spans`, `trace:<trace_id>`, `llm` the claim states. -/
theorem publish_span_channel_names :
    (publish_span (fun _ => true) llmSpan).1 =
      ["agenttrace:spans", "agenttrace:trace:test-trace", "agenttrace:llm"] ∧
    "spans" ∉ (publish_span (fun _ => true) llmSpan).1 ∧
    "trace:test-trace" ∉ (publish_span (fun _ => true) llmSpan).1 ∧
    "llm" ∉ (publish_span (fun _ => true) llmSpan).1 := by
  refine ⟨by decide, by decide, by decide, by decide⟩

/-- Claim C5, amended.  When every publish succeeds, `publish_span`
publishes the span (its single JSON serialization) to exactly
`agenttrace:spans`, to `agenttrace:trace:<trace_id>`, and — iff the span is
an LLM span (`model_name` set) — to `agenttrace:llm`, and to no other
channel. -/
theorem publish_span_routing (s : Span) :
    (publish_span (fun _ => true) s).1 = channelsFor s ∧
    (publish_span (fun _ => true) s).2 = true ∧
    channelsFor s = ["agenttrace:spans", "agenttrace:trace:" ++ s.trace_id]
        ++ (if s.model_name.isSome then ["agenttrace:llm"] else []) ∧
    ("agenttrace:llm" ∈ channelsFor s ↔ s.is_llm_call = true) := by
  have hne : "agenttrace:trace:" ++ s.trace_id ≠ "agenttrace:llm" := by
    intro hcontra
    have hlen := congrArg String.length hcontra
    rw [String.length_append] at hlen
    have h17 : ("agenttrace:trace:" : String).length = 17 := rfl
    have h14 : ("agenttrace:llm" : String).length = 14 := rfl
    omega
  cases hl : s.is_llm_call with
  | false =>
    refine ⟨by simp [publish_span, channelsFor, hl], by simp [publish_span, hl], ?_, ?_⟩
    · simp only [channelsFor, hl, if_false]
      rw [show s.model_name.isSome = false from hl, if_neg (by simp)]
    · simp only [channelsFor, hl, if_false, List.append_nil]
      constructor
      · intro hmem
        rcases List.mem_cons.mp hmem with h1 | h1
        · exact absurd h1.symm (by decide)
        · rcases List.mem_cons.mp h1 with h2 | h2
          · exact absurd h2.symm hne
          · cases h2
      · intro hcontra
        exact absurd hcontra (by decide)
  | true =>
    refine ⟨by simp [publish_span, channelsFor, hl], by simp [publish_span, hl], ?_, ?_⟩
    · simp only [channelsFor, hl, if_true]
      rw [show s.model_name.isSome = true from hl, if_pos rfl]
    · simp [channelsFor, hl]

/-- Claim C6, counterexample.  The three publishes are chained with the
error-propagating operator: when the publish to the per-trace channel
fails, `publish_span` returns the error at once and the LLM channel — an
applicable later channel — is never attempted, contrary to the claim that
remaining channels are still attempted. -/
theorem publish_span_not_best_effort :
    publish_span (fun c => !(c == "agenttrace:trace:test-trace")) llmSpan
      = (["agenttrace:spans", "agenttrace:trace:test-trace"], false) ∧
    channelsFor llmSpan
      = ["agenttrace:spans", "agenttrace:trace:test-trace", "agenttrace:llm"] ∧
    "agenttrace:llm" ∉
      (publish_span (fun c => !(c == "agenttrace:trace:test-trace")) llmSpan).1 := by
  refine ⟨by decide, by decide, by decide⟩

/-- Claim C6, amended.  `publish_span` attempts the applicable channels in
order only up to and including the first failing publish, whose error it
returns to the caller; it reports success iff every applicable channel's
publish succeeded.  (Best-effort handling exists one level up: the pipeline
merely logs the returned error and continues with the span.) -/
theorem publish_span_early_exit (ok : String → Bool) (s : Span) :
    (publish_span ok s).1 = attemptedChannels ok (channelsFor s) ∧
    ((publish_span ok s).2 = true ↔ ∀ c ∈ channelsFor s, ok c = true) := by
  cases h1 : ok "agenttrace:spans" <;>
    cases h2 : ok ("agenttrace:trace:" ++ s.trace_id) <;>
      cases hl : s.is_llm_call <;>
        cases h3 : ok "agenttrace:llm" <;>
          simp [publish_span, channelsFor, attemptedChannels, h1, h2, hl, h3]

/-- Claim C8, counterexample.  When the metric query returns no data,
`evaluate_rule` hits the early `return Ok(())` BEFORE the
`update_last_evaluated` call at the end of the function: the evaluation of
the enabled `sampleRule` performs no repository action at all, so
`last_evaluated_at` is not recorded — contrary to the claim (and to the
spec's "If no data, record `last_evaluated_at` and return"). -/
theorem evaluate_rule_no_data_skips_timestamp :
    sampleRule.enabled = true ∧
    (evaluate_rule 0 0 sampleRule none healthyState).2 = [] ∧
    RepoAction.update_last_evaluated sampleRule.id ∉
      (evaluate_rule 0 0 sampleRule none healthyState).2 := by
  refine ⟨rfl, rfl, by simp [evaluate_rule]⟩

/-- Claim C8, amended.  `evaluate_rule` records `last_evaluated_at`
exactly when the metric query returns data: with a metric value every
evaluation (breaching or not) ends with an `update_last_evaluated` action,
but on the no-data path it returns early with no repository action and the
timestamp is not recorded. -/
theorem evaluate_rule_timestamp_iff_data (now : Int) (fresh_id : Nat)
    (rule : AlertRule) (st : EvaluatorState) (hen : rule.enabled = true) :
    (evaluate_rule now fresh_id rule none st).2 = [] ∧
    (∀ metric : MetricValue,
      RepoAction.update_last_evaluated rule.id ∈
        (evaluate_rule now fresh_id rule (some metric) st).2) := by
  refine ⟨rfl, ?_⟩
  intro metric
  cases hc : rule.check metric.value with
  | true =>
    rcases hhb : handle_breach now fresh_id rule metric st with ⟨st1, created⟩
    cases created <;> simp [evaluate_rule, hc, hhb]
  | false =>
    rcases hhr : handle_recovery now rule st with ⟨st1, resolved⟩
    cases resolved <;> simp [evaluate_rule, hc, hhr]

/-- Claim C8, witness for the amended theorem at a concrete rule, metric
and the healthy state. -/
theorem evaluate_rule_timestamp_iff_data_witness :
    (evaluate_rule 0 0 sampleRule none healthyState).2 = [] ∧
    RepoAction.update_last_evaluated sampleRule.id ∈
      (evaluate_rule 0 0 sampleRule (some sampleMetric) healthyState).2 :=
  ⟨(evaluate_rule_timestamp_iff_data 0 0 sampleRule healthyState rfl).1,
   (evaluate_rule_timestamp_iff_data 0 0 sampleRule healthyState rfl).2 sampleMetric⟩

set_option maxRecDepth 40000 in
/-- Claim C10.  `enrich_span` is NOT total: `String::truncate(500)` panics
when byte offset 500 is not a character boundary.  A prompt preview of 200
euro signs occupies 600 UTF-8 bytes (3 per character), so offset 500 falls
inside the 167th character and the truncation step panics (modelled as
`none`) instead of completing. -/
theorem enrich_span_panics_on_multibyte :
    utf8Len (List.replicate 200 '€') = 600 ∧
    charBytes '€' = 3 ∧
    truncBytes (List.replicate 200 '€') 500 = none ∧
    enrich_span { baseSpan with prompt_preview := some (List.replicate 200 '€') }
      = none := by
  refine ⟨by decide, by decide, by decide, ?_⟩
  have ht : truncatePreviewOpt (some (List.replicate 200 '€')) = none := by decide
  rw [enrich_span_bind]
  have hp : ({ baseSpan with prompt_preview := some (List.replicate 200 '€') } : Span).prompt_preview
      = some (List.replicate 200 '€') := rfl
  rw [hp, ht]
  rfl

set_option maxRecDepth 40000 in
/-- Claim C7, counterexample.  The truncation threshold is the BYTE length
(`String::len`), not the character count: a prompt preview of 251 'é'
characters (502 UTF-8 bytes) has at most 500 characters, so the claim says
it is left unchanged — but enrichment truncates it at byte 500 (250
characters) and appends "...", persisting 253 characters, which is neither
the original 251 nor the claimed 503. -/
theorem preview_truncation_not_char_based :
    (List.replicate 251 'é').length = 251 ∧
    (enrich_span { baseSpan with prompt_preview := some (List.replicate 251 'é') }).map
        Span.prompt_preview
      = some (some (List.replicate 250 'é' ++ "...".data)) ∧
    List.replicate 250 'é' ++ "...".data ≠ List.replicate 251 'é' ∧
    (List.replicate 250 'é' ++ "...".data).length = 253 := by
  refine ⟨by decide, ?_, by decide, by decide⟩
  rw [enrich_span_bind]
  have ht : truncatePreviewOpt
        (({ baseSpan with prompt_preview := some (List.replicate 251 'é') } : Span).prompt_preview)
      = some (some (List.replicate 250 'é' ++ "...".data)) := by decide
  rw [ht]
  rfl

/-- Claim C7, amended.  Enrichment truncates each preview by UTF-8 BYTE
length: a preview of at most 500 bytes is left unchanged; a longer preview
(when byte 500 is a character boundary — otherwise the code panics, see the
totality claim) is cut to its first 500 bytes with "..." appended, giving
exactly 503 bytes and ending in "...".  For ASCII previews bytes and
characters coincide, so a submitted 1000-character ASCII prompt is
persisted with exactly 503 characters ending in "...". -/
theorem preview_truncation_byte_semantics :
    (∀ p : List Char, utf8Len p ≤ 500 → truncatePreview p = some p) ∧
    (∀ p q : List Char, 500 < utf8Len p → truncatePreview p = some q →
      utf8Len q = 503 ∧ ∃ t, q = t ++ "...".data ∧ utf8Len t = 500) ∧
    (∀ (s : Span) (p : List Char), s.prompt_preview = some p →
      s.completion_preview = none → (∀ c ∈ p, charBytes c = 1) → p.length = 1000 →
      ∃ s', enrich_span s = some s' ∧
        s'.prompt_preview = some (p.take 500 ++ "...".data) ∧
        (p.take 500 ++ "...".data).length = 503) := by
  refine ⟨?_, ?_, ?_⟩
  · intro p h
    rw [truncatePreview, if_neg (by omega)]
  · intro p q hlen h
    rw [truncatePreview, if_pos hlen] at h
    cases ht : truncBytes p 500 with
    | none => rw [ht] at h; cases h
    | some t =>
      rw [ht] at h
      simp only [Option.map_some', Option.some.injEq] at h
      subst h
      have h1 := truncBytes_utf8Len p 500 t ht
      rw [min_eq_left (by omega)] at h1
      have h3 : utf8Len ("...".data) = 3 := rfl
      refine ⟨?_, t, rfl, h1⟩
      rw [utf8Len_append, h1, h3]
  · intro s p hp hc ha hlen
    have hu : utf8Len p = 1000 := (utf8Len_ascii p ha).trans hlen
    have htr : truncatePreview p = some (p.take 500 ++ "...".data) := by
      rw [truncatePreview, if_pos (by omega), truncBytes_ascii p 500 ha]
      rfl
    have h1 : truncatePreviewOpt s.prompt_preview
        = some (some (p.take 500 ++ "...".data)) := by
      rw [hp]
      simp [truncatePreviewOpt, htr]
    have h2 : truncatePreviewOpt s.completion_preview = some none := by
      rw [hc]
      rfl
    refine ⟨{ enrich_base s with
                prompt_preview := some (p.take 500 ++ "...".data)
                completion_preview := none }, ?_, rfl, ?_⟩
    · rw [enrich_span_bind, h1, h2]
      rfl
    · rw [List.length_append, List.length_take, hlen]
      rfl

set_option maxRecDepth 40000 in
/-- Claim C7, witness: the three parts of the byte-semantics theorem
instantiated on concrete previews (a short ASCII preview, the 251-é
preview, and the spec's 1000-character ASCII prompt scenario). -/
theorem preview_truncation_byte_semantics_witness :
    truncatePreview "hi".data = some "hi".data ∧
    (utf8Len (List.replicate 250 'é' ++ "...".data) = 503 ∧
      ∃ t, List.replicate 250 'é' ++ "...".data = t ++ "...".data ∧ utf8Len t = 500) ∧
    (∃ s', enrich_span asciiPromptSpan = some s' ∧
      s'.prompt_preview = some ((List.replicate 1000 'a').take 500 ++ "...".data) ∧
      ((List.replicate 1000 'a').take 500 ++ "...".data).length = 503) :=
  ⟨preview_truncation_byte_semantics.1 "hi".data (by decide),
   preview_truncation_byte_semantics.2.1 (List.replicate 251 'é')
     (List.replicate 250 'é' ++ "...".data) (by decide) (by decide),
   preview_truncation_byte_semantics.2.2 asciiPromptSpan (List.replicate 1000 'a')
     rfl rfl
     (fun c hc => by rw [List.eq_of_mem_replicate hc]; rfl)
     (by simp)⟩

/-! ## Helper lemmas for the breach state machine -/

/-- The state with the rule's consecutive-failure counter bumped, common to
every branch of `handle_breach`. -/
def bumpCount (rule : AlertRule) (st : EvaluatorState) : EvaluatorState :=
  { st with failure_counts := Function.update st.failure_counts rule.id (some ((st.failure_counts rule.id).getD 0 + 1)) }

/-- `handle_breach` below the consecutive-failure threshold: only the
counter is bumped, no event. -/
theorem handle_breach_below (now : Int) (fresh_id : Nat) (rule : AlertRule)
    (metric : MetricValue) (st : EvaluatorState)
    (h : (st.failure_counts rule.id).getD 0 + 1 < rule.consecutive_failures) :
    handle_breach now fresh_id rule metric st = (bumpCount rule st, none) := by
  simp only [handle_breach, bumpCount]
  rw [if_pos h]

/-- `handle_breach` at or above the threshold while an event is already
active: only the counter is bumped, no new event. -/
theorem handle_breach_already_active (now : Int) (fresh_id : Nat)
    (rule : AlertRule) (metric : MetricValue) (st : EvaluatorState)
    (e : AlertEvent)
    (h : ¬ ((st.failure_counts rule.id).getD 0 + 1 < rule.consecutive_failures))
    (hact : st.active_alerts rule.id = some e) :
    handle_breach now fresh_id rule metric st = (bumpCount rule st, none) := by
  simp only [handle_breach, bumpCount]
  rw [if_neg h, hact]
  rfl

/-- `handle_breach` reaching the threshold with no active event: the event
is created and installed as the rule's active alert. -/
theorem handle_breach_creates (now : Int) (fresh_id : Nat) (rule : AlertRule)
    (metric : MetricValue) (st : EvaluatorState)
    (h : ¬ ((st.failure_counts rule.id).getD 0 + 1 < rule.consecutive_failures))
    (hact : st.active_alerts rule.id = none) :
    handle_breach now fresh_id rule metric st =
      ({ bumpCount rule st with active_alerts := Function.update st.active_alerts rule.id (some (breachEvent now fresh_id rule metric)) },
       some (breachEvent now fresh_id rule metric)) := by
  simp only [handle_breach, bumpCount]
  rw [if_neg h, hact]
  rfl

/-- Invariant of a run of consecutive breaches from the healthy state:
after `n` breaches the counter reads `n`; while `n` is below the rule's
`consecutive_failures` no alert is active and no event was created; once
`n` reaches it, exactly one event exists — active, with the rule's severity
and `threshold_value = rule.threshold ?? 0` — and it stays the only one. -/
theorem breachRun_invariant (rule : AlertRule) (metric : MetricValue)
    (hK : 1 ≤ rule.consecutive_failures) : ∀ n : Nat,
    ((breachRun rule metric n).1.failure_counts rule.id
        = if n = 0 then none else some (n : Int)) ∧
    ((n : Int) < rule.consecutive_failures →
      (breachRun rule metric n).1.active_alerts rule.id = none ∧
      (breachRun rule metric n).2 = []) ∧
    (rule.consecutive_failures ≤ (n : Int) →
      ∃ e : AlertEvent, (breachRun rule metric n).1.active_alerts rule.id = some e ∧
        (breachRun rule metric n).2 = [e] ∧ e.status = AlertStatus.active ∧
        e.severity = rule.severity ∧ e.threshold_value = rule.threshold.getD 0) := by
  intro n
  induction n with
  | zero =>
    exact ⟨rfl, fun _ => ⟨rfl, rfl⟩, fun hcontra => absurd hcontra (by omega)⟩
  | succ n ih =>
    rcases hbr : breachRun rule metric n with ⟨st, evs⟩
    rw [hbr] at ih
    obtain ⟨ihc, ihlt, ihge⟩ := ih
    dsimp only at ihc ihlt ihge
    have hcount : (st.failure_counts rule.id).getD 0 + 1 = (n : Int) + 1 := by
      by_cases hn : n = 0
      · rw [ihc, if_pos hn, hn]
        rfl
      · rw [ihc, if_neg hn]
        rfl
    have hstep : breachRun rule metric (n + 1)
        = ((handle_breach (n : Int) n rule metric st).1,
           evs ++ (handle_breach (n : Int) n rule metric st).2.toList) := by
      simp only [breachRun, hbr]
    have hbumpc : (bumpCount rule st).failure_counts rule.id = some ((n : Int) + 1) := by
      simp only [bumpCount]
      rw [Function.update_same, hcount]
    have hcountgoal : ∀ stx : EvaluatorState,
        stx.failure_counts rule.id = some ((n : Int) + 1) →
        stx.failure_counts rule.id = if n + 1 = 0 then none else some ((n + 1 : Nat) : Int) := by
      intro stx hx
      rw [if_neg (Nat.succ_ne_zero n), hx]
      push_cast
      rfl
    by_cases hlt : (n : Int) + 1 < rule.consecutive_failures
    · -- still below the threshold: counter bumped, nothing else
      have hb := handle_breach_below (n : Int) n rule metric st (by omega)
      rw [hb] at hstep
      dsimp only at hstep
      rw [hstep]
      have hn : (n : Int) < rule.consecutive_failures := by omega
      refine ⟨hcountgoal _ hbumpc, ?_, ?_⟩
      · intro _
        refine ⟨(ihlt hn).1, ?_⟩
        rw [(ihlt hn).2]
        rfl
      · intro hcontra
        exact absurd hcontra (by omega)
    · by_cases hKn : rule.consecutive_failures ≤ (n : Int)
      · -- an event was already created and is still active: no new event
        obtain ⟨e, hact, hevs, hst, hsev, hthr⟩ := ihge hKn
        have hb := handle_breach_already_active (n : Int) n rule metric st e
          (by omega) hact
        rw [hb] at hstep
        dsimp only at hstep
        rw [hstep]
        refine ⟨hcountgoal _ hbumpc, ?_, ?_⟩
        · intro hcontra
          exact absurd hcontra (by omega)
        · intro _
          refine ⟨e, hact, ?_, hst, hsev, hthr⟩
          rw [hevs]
          rfl
      · -- exactly the K-th breach: the single event is created now
        have hn : (n : Int) < rule.consecutive_failures := by omega
        obtain ⟨hact, hevs⟩ := ihlt hn
        have hb := handle_breach_creates (n : Int) n rule metric st (by omega) hact
        rw [hb] at hstep
        dsimp only at hstep
        rw [hstep]
        refine ⟨hcountgoal _ hbumpc, ?_, ?_⟩
        · intro hcontra
          exact absurd hcontra (by omega)
        · intro _
          refine ⟨breachEvent (n : Int) n rule metric, ?_, ?_, rfl, rfl, rfl⟩
          · dsimp only
            rw [Function.update_same]
          · rw [hevs]
            rfl



/-- Claim C3.  For an enabled rule with `consecutive_failures = K ≥ 1`,
a run of consecutive breaching evaluations from the healthy state creates
no alert event during the first `K − 1` breaches, and from the `K`-th
breach on exactly one event exists — created on the `K`-th breach with
status active, severity taken from the rule and
`threshold_value = rule.threshold ?? 0` — with no further event while it
stays active. -/
theorem alert_hysteresis (rule : AlertRule) (metric : MetricValue) (n : Nat)
    (hen : rule.enabled = true) (hK : 1 ≤ rule.consecutive_failures) :
    ((n : Int) < rule.consecutive_failures → (breachRun rule metric n).2 = []) ∧
    (rule.consecutive_failures ≤ (n : Int) →
      ∃ e : AlertEvent, (breachRun rule metric n).2 = [e] ∧
        e.status = AlertStatus.active ∧ e.severity = rule.severity ∧
        e.threshold_value = rule.threshold.getD 0) := by
  obtain ⟨-, hlt, hge⟩ := breachRun_invariant rule metric hK n
  refine ⟨fun h => (hlt h).2, fun h => ?_⟩
  obtain ⟨e, -, hevs, hst, hsev, hthr⟩ := hge h
  exact ⟨e, hevs, hst, hsev, hthr⟩

/-- Claim C3, witness: the sample rule (`K = 3`) run for 2, 3 and 5
consecutive breaches. -/
theorem alert_hysteresis_witness :
    (breachRun sampleRule sampleMetric 2).2 = [] ∧
    (∃ e : AlertEvent, (breachRun sampleRule sampleMetric 3).2 = [e] ∧
      e.status = AlertStatus.active ∧ e.severity = sampleRule.severity ∧
      e.threshold_value = sampleRule.threshold.getD 0) ∧
    (∃ e : AlertEvent, (breachRun sampleRule sampleMetric 5).2 = [e] ∧
      e.status = AlertStatus.active ∧ e.severity = sampleRule.severity ∧
      e.threshold_value = sampleRule.threshold.getD 0) :=
  ⟨(alert_hysteresis sampleRule sampleMetric 2 rfl (by decide)).1 (by decide),
   (alert_hysteresis sampleRule sampleMetric 3 rfl (by decide)).2 (by decide),
   (alert_hysteresis sampleRule sampleMetric 5 rfl (by decide)).2 (by decide)⟩

end AgentTrace
